import Mathlib

/-!
Shallow embedding of the "AI Smart Commenter" single-page tool
(`src/App.tsx` together with `services/geminiService.ts`).

Strings are modelled as `List Char`, JavaScript numbers as `ℚ`/`ℤ`/`ℕ`,
and the nondeterministic inputs of a bulk run (`Math.random()`, the
generated log ids, `Date.now()`) as oracle functions passed explicitly.
-/

/-- A search result / bulk target: the `BlogResult` interface of `App.tsx`
(`title` and `url`, both strings). -/
structure BlogResult where
  title : List Char
  url : List Char
deriving DecidableEq

/-- Splitting a character list at every occurrence of the separator `c`,
as JavaScript `String.prototype.split` with a one-character separator
(`''.split(c) = ['']`, `'|'.split('|') = ['', '']`, ...). -/
def splitChar (c : Char) : List Char → List (List Char)
  | [] => [[]]
  | x :: xs =>
    if x = c then [] :: splitChar c xs
    else (x :: (splitChar c xs).headD []) :: (splitChar c xs).tail

/-- Joining with a one-character separator, as `Array.prototype.join`. -/
def joinChar (c : Char) : List (List Char) → List Char
  | [] => []
  | [p] => p
  | p :: ps => p ++ c :: joinChar c ps

/-- The fallback title string `'Postingan Blog'` used by `handleFileUpload`
when the parsed title segment is falsy. -/
def defaultTitle : List Char := "Postingan Blog".data

/-- Parsing one imported line, from `handleFileUpload`:
`const [title, url] = line.split('|');
 return { title: title || 'Postingan Blog', url: url || line };`.
A missing (`undefined`) destructured component and an empty string are
both falsy; both are modelled by `[]`. -/
def parseLine (line : List Char) : BlogResult :=
  let parts := splitChar '|' line
  { title := if parts.headD [] = [] then defaultTitle else parts.headD [],
    url := if parts.getD 1 [] = [] then line else parts.getD 1 [] }

/-- Truthiness of `l.trim()` in the import filter: the line contains at
least one non-whitespace character. -/
def lineNonBlank (l : List Char) : Bool := l.any (fun ch => !ch.isWhitespace)

/-- The parsing part of `handleFileUpload`:
`text.split('\n').filter(l => l.trim()).map(line => ...)`. -/
def importFromText (text : List Char) : List BlogResult :=
  ((splitChar '\n' text).filter lineNonBlank).map parseLine

/-- The file content built by `exportToTxt`:
`searchResults.map(r => r.title + '|' + r.url).join('\n')`. -/
def exportContent (rs : List BlogResult) : List Char :=
  joinChar '\n' (rs.map (fun r => r.title ++ '|' :: r.url))

/-- JavaScript `Math.round` on an exact rational: round half toward
positive infinity, `⌊q + 1/2⌋`. -/
def jsRound (q : ℚ) : ℤ := ⌊q + 1/2⌋

/-- The sequence of progress percentages emitted by the bulk loop over `n`
targets: `Math.round(((i + 1) / n) * 100)` for `i = 0 .. n-1`. -/
def progressSeq (n : ℕ) : List ℤ :=
  (List.range n).map (fun i : ℕ => jsRound (((i : ℚ) + 1) / (n : ℚ) * 100))

/-- Outcome decision for one simulated submission, applied to the sampled
value of `Math.random()`: `const isSuccess = Math.random() > 0.1`. -/
def isSuccess (x : ℚ) : Bool := decide (1/10 < x)

/-- Idealized event of a successful draw: a uniform real sample in `[0,1)`
that exceeds the `0.1` threshold of `isSuccess`. -/
def successRegion : Set ℝ := {x | x ∈ Set.Ico (0 : ℝ) 1 ∧ 1/10 < x}

/-- Idealized event of a failed draw: a uniform real sample in `[0,1)`
that does not exceed the `0.1` threshold of `isSuccess`. -/
def failRegion : Set ℝ := {x | x ∈ Set.Ico (0 : ℝ) 1 ∧ ¬ 1/10 < x}

/-- The two possible outcomes recorded in a log entry. -/
inductive LogStatus
  | success
  | fail
deriving DecidableEq

/-- One activity-log record, the `LogEntry` interface of `App.tsx`. -/
structure LogEntry where
  id : List Char
  url : List Char
  status : LogStatus
  message : List Char
  timestamp : ℤ
deriving DecidableEq

/-- Success message: `'Komentar berhasil disiapkan (Siap Paste)'`. -/
def successMessage : List Char := "Komentar berhasil disiapkan (Siap Paste)".data

/-- Failure message: `'Gagal mengakses kolom komentar'`. -/
def failMessage : List Char := "Gagal mengakses kolom komentar".data

/-- The log entry built in the body of the bulk loop for the target `t` at
zero-based index `i`, given the oracles for `Math.random()`, the random
id string, and `Date.now()`. -/
def mkLog (rand : ℕ → ℚ) (ids : ℕ → List Char) (times : ℕ → ℤ)
    (i : ℕ) (t : BlogResult) : LogEntry :=
  { id := ids i,
    url := t.url,
    status := if isSuccess (rand i) then .success else .fail,
    message := if isSuccess (rand i) then successMessage else failMessage,
    timestamp := times i }

/-- All log entries of a completed run, in processing (list) order. -/
def emittedLogs (rand : ℕ → ℚ) (ids : ℕ → List Char) (times : ℕ → ℤ)
    (targets : List BlogResult) : List LogEntry :=
  targets.enum.map (fun p => mkLog rand ids times p.1 p.2)

/-- The two precondition failures `startBulk` can report via `setError`. -/
inductive BulkError
  /-- `'Daftar target kosong.'` — the target list is empty. -/
  | emptyTargetList
  /-- `'Teks komentar belum diatur di Tab 2.'` — no comment text is set. -/
  | missingComment
deriving DecidableEq

/-- The slice of component state that `startBulk` reads and writes:
`bulkTargets`, `generatedCommentText`, `isBulking`, `logs`, `progress`. -/
structure BulkState where
  targets : List BlogResult
  comment : List Char
  isBulking : Bool
  logs : List LogEntry
  progress : ℤ
deriving DecidableEq

/-- The `startBulk` handler.  On a precondition failure it reports the
error and leaves the state unchanged.  Otherwise it clears the log, runs
the loop to completion (each iteration prepends its new log entry and
sets `progress` to `Math.round(((i + 1) / n) * 100)`), and finally clears
`isBulking`.  The returned state is the state after the run. -/
def startBulk (rand : ℕ → ℚ) (ids : ℕ → List Char) (times : ℕ → ℤ)
    (σ : BulkState) : Option BulkError × BulkState :=
  if σ.targets.length = 0 then (some .emptyTargetList, σ)
  else if σ.comment = [] then (some .missingComment, σ)
  else
    (none,
      { σ with
        isBulking := false,
        logs := (emittedLogs rand ids times σ.targets).reverse,
        progress := (progressSeq σ.targets.length).getLastD 0 })

/-- Whether the "Mulai Bulk Comment" button accepts a click:
the negation of `disabled={isBulking || bulkTargets.length === 0}`. -/
def startButtonEnabled (σ : BulkState) : Bool :=
  !σ.isBulking && !(σ.targets.length == 0)

/-- The `web` field of a grounding chunk (`chunk.web?.title`,
`chunk.web?.uri`); each field may be absent. -/
structure WebInfo where
  title : Option (List Char)
  uri : Option (List Char)
deriving DecidableEq

/-- One grounding chunk of the search response; `web` may be absent. -/
structure GroundingChunk where
  web : Option WebInfo
deriving DecidableEq

/-- The fallback search-result title `'Judul Artikel'`. -/
def defaultSearchTitle : List Char := "Judul Artikel".data

/-- `{ title: chunk.web?.title || 'Judul Artikel', url: chunk.web?.uri || '' }`. -/
def chunkToResult (c : GroundingChunk) : BlogResult :=
  { title := if (c.web.bind WebInfo.title).getD [] = [] then defaultSearchTitle
             else (c.web.bind WebInfo.title).getD [],
    url := (c.web.bind WebInfo.uri).getD [] }

/-- `item.url.includes('.html')`: the url contains `.html` as a substring. -/
def hasHtmlSub (u : List Char) : Bool :=
  u.tails.any (fun t => ".html".data.isPrefixOf t)

/-- Whether the list starts with a `/dddd/dd/` date segment
(`\d` of the regex is an ASCII decimal digit). -/
def dateSegHere : List Char → Bool
  | '/' :: a :: b :: c :: d :: '/' :: e :: f :: '/' :: _ =>
      a.isDigit && b.isDigit && c.isDigit && d.isDigit && e.isDigit && f.isDigit
  | _ => false

/-- The regex test `/\/\d{4}\/\d{2}\//.test(item.url)`: some position of
the url starts a `/dddd/dd/` date segment. -/
def hasDateSeg (u : List Char) : Bool := u.tails.any dateSegHere

/-- The article-shape filter of `searchBlogs`:
`item.url.includes('.html') || /\/\d{4}\/\d{2}\//.test(item.url)`. -/
def articleLike (u : List Char) : Bool := hasHtmlSub u || hasDateSeg u

/-- The deterministic core of `searchBlogs` applied to the grounding
chunks of the model response:
`chunks?.map(...).filter(...).slice(0, count) || []`. -/
def searchBlogsResults (chunks : Option (List GroundingChunk)) (count : ℕ) :
    List BlogResult :=
  match chunks with
  | none => []
  | some cs =>
      ((cs.map chunkToResult).filter (fun r => articleLike r.url)).take count

theorem splitChar_ne_nil (c : Char) (s : List Char) : splitChar c s ≠ [] := by
  induction s with
  | nil => simp [splitChar]
  | cons x xs ih =>
    by_cases hx : x = c <;> simp [splitChar, hx]

theorem splitChar_of_not_mem {c : Char} {s : List Char} (h : c ∉ s) :
    splitChar c s = [s] := by
  induction s with
  | nil => rfl
  | cons x xs ih =>
    rw [List.mem_cons, not_or] at h
    have hx : x ≠ c := fun hxc => h.1 hxc.symm
    simp [splitChar, hx, ih h.2]

theorem splitChar_append_cons (c : Char) (a t : List Char) (h : c ∉ a) :
    splitChar c (a ++ c :: t) = a :: splitChar c t := by
  induction a with
  | nil => simp [splitChar]
  | cons x xs ih =>
    rw [List.mem_cons, not_or] at h
    have hx : x ≠ c := fun hxc => h.1 hxc.symm
    have ih2 := ih h.2
    have hstep : splitChar c (x :: (xs ++ c :: t)) =
        (x :: (splitChar c (xs ++ c :: t)).headD []) ::
          (splitChar c (xs ++ c :: t)).tail := by
      simp [splitChar, hx]
    rw [List.cons_append, hstep, ih2]
    simp

theorem splitChar_headD (c : Char) (s : List Char) :
    (splitChar c s).headD [] = s.takeWhile (fun ch => ch != c) := by
  induction s with
  | nil => rfl
  | cons x xs ih =>
    by_cases hx : x = c
    · simp [splitChar, hx, List.takeWhile]
    · have hb : (x != c) = true := by simp [hx]
      simp [splitChar, hx, List.takeWhile, hb]
      simpa using ih

theorem splitChar_join (c : Char) (parts : List (List Char)) (h : parts ≠ [])
    (hc : ∀ p ∈ parts, c ∉ p) : splitChar c (joinChar c parts) = parts := by
  induction parts with
  | nil => exact absurd rfl h
  | cons p ps ih =>
    match ps with
    | [] => exact splitChar_of_not_mem (hc p (by simp))
    | q :: rest =>
      have hjoin : joinChar c (p :: q :: rest) = p ++ c :: joinChar c (q :: rest) := rfl
      rw [hjoin, splitChar_append_cons c p _ (hc p (by simp)),
        ih (by simp) (fun r hr => hc r (List.mem_cons_of_mem p hr))]

theorem splitChar_mem (c : Char) (s : List Char) (h : c ∈ s) :
    splitChar c s =
      s.takeWhile (fun ch => ch != c) ::
        splitChar c ((s.dropWhile (fun ch => ch != c)).tail) := by
  induction s with
  | nil => exact absurd h (List.not_mem_nil c)
  | cons x xs ih =>
    by_cases hx : x = c
    · subst hx
      simp [splitChar, List.takeWhile, List.dropWhile]
    · have hxs : c ∈ xs := by
        rcases List.mem_cons.mp h with h1 | h1
        · exact absurd h1.symm hx
        · exact h1
      have hb : (x != c) = true := by simp [hx]
      have hstep : splitChar c (x :: xs) =
          (x :: (splitChar c xs).headD []) :: (splitChar c xs).tail := by
        simp [splitChar, hx]
      rw [hstep, ih hxs]
      simp [List.takeWhile, List.dropWhile, hb]

theorem parseLine_concat {t u : List Char} (ht : '|' ∉ t) (hu : '|' ∉ u)
    (ht0 : t ≠ []) (hu0 : u ≠ []) : parseLine (t ++ '|' :: u) = ⟨t, u⟩ := by
  have hparts : splitChar '|' (t ++ '|' :: u) = [t, u] := by
    rw [splitChar_append_cons _ _ _ ht, splitChar_of_not_mem hu]
  simp [parseLine, hparts, ht0, hu0]

theorem lineNonBlank_concat (t u : List Char) :
    lineNonBlank (t ++ '|' :: u) = true := by
  simp [lineNonBlank]

theorem progressSeq_getD (n i : ℕ) (h : i < n) :
    (progressSeq n).getD i 0 = jsRound (((i : ℚ) + 1) / (n : ℚ) * 100) := by
  rw [progressSeq, List.getD_eq_getElem?_getD, List.getElem?_map,
    List.getElem?_range h]
  rfl

theorem progressSeq_getLastD (n : ℕ) (h : 0 < n) :
    (progressSeq n).getLastD 0 = 100 := by
  obtain ⟨m, rfl⟩ : ∃ m, n = m + 1 := ⟨n - 1, by omega⟩
  have hm : ((m : ℚ) + 1) ≠ 0 := by positivity
  rw [progressSeq, List.range_succ, List.map_append, List.map_singleton,
    List.getLastD_concat]
  have harg : ((m : ℚ) + 1) / ((m + 1 : ℕ) : ℚ) * 100 = 100 := by
    push_cast
    rw [div_self hm, one_mul]
  rw [harg, jsRound]
  rw [Int.floor_eq_iff]
  constructor <;> norm_num

theorem progressSeq_sorted (n : ℕ) : List.Sorted (· ≤ ·) (progressSeq n) := by
  rcases Nat.eq_zero_or_pos n with h | h
  · simp [progressSeq, h]
  · have hn : (0 : ℚ) < (n : ℚ) := by exact_mod_cast h
    refine List.Pairwise.map _ ?_ (List.pairwise_lt_range n)
    intro a b hab
    simp only [jsRound]
    apply Int.floor_mono
    have hq : ((a : ℚ) + 1) ≤ (b : ℚ) + 1 := by
      have : (a : ℚ) ≤ (b : ℚ) := by exact_mod_cast hab.le
      linarith
    gcongr

theorem progressSeq_lt_100 (n i : ℕ) (hn : n < 200) (hi : i + 1 < n) :
    (progressSeq n).getD i 0 < 100 := by
  rw [progressSeq_getD n i (by omega)]
  have hn0 : (0 : ℚ) < (n : ℚ) := by exact_mod_cast (by omega : 0 < n)
  rw [jsRound, Int.floor_lt]
  have h1 : ((i : ℚ) + 1) * 200 < 199 * (n : ℚ) := by
    exact_mod_cast (by omega : (i + 1) * 200 < 199 * n)
  have h2 : ((i : ℚ) + 1) * 100 / (n : ℚ) < 199 / 2 := by
    rw [div_lt_iff₀ hn0]
    linarith
  push_cast
  rw [div_mul_eq_mul_div]
  linarith

theorem emittedLogs_map_url (rand : ℕ → ℚ) (ids : ℕ → List Char)
    (times : ℕ → ℤ) (targets : List BlogResult) :
    (emittedLogs rand ids times targets).map LogEntry.url =
      targets.map BlogResult.url := by
  rw [emittedLogs, List.map_map]
  have : (LogEntry.url ∘ fun p : ℕ × BlogResult => mkLog rand ids times p.1 p.2)
      = (BlogResult.url ∘ Prod.snd) := by
    funext p
    rfl
  rw [this, ← List.map_map, List.enum_map_snd]

theorem emittedLogs_length (rand : ℕ → ℚ) (ids : ℕ → List Char)
    (times : ℕ → ℤ) (targets : List BlogResult) :
    (emittedLogs rand ids times targets).length = targets.length := by
  rw [emittedLogs, List.length_map, List.enum_length]

/-- Claim C1: for every non-empty target list of length `N` and non-empty
comment text, a completed `startBulk` run reports no error, emits exactly
`N` log entries — one per target, in list order (the displayed log is the
reverse of the emission order) — and ends with `progress = 100` and
`isBulking = false`. -/
theorem startBulk_completed_run (rand : ℕ → ℚ) (ids : ℕ → List Char)
    (times : ℕ → ℤ) (σ : BulkState) (h1 : σ.targets ≠ []) (h2 : σ.comment ≠ []) :
    (startBulk rand ids times σ).1 = none ∧
    (startBulk rand ids times σ).2.logs.length = σ.targets.length ∧
    (startBulk rand ids times σ).2.logs.reverse.map LogEntry.url =
      σ.targets.map BlogResult.url ∧
    (startBulk rand ids times σ).2.progress = 100 ∧
    (startBulk rand ids times σ).2.isBulking = false := by
  have hl : ¬ σ.targets.length = 0 := by
    simpa [List.length_eq_zero] using h1
  rw [startBulk, if_neg hl, if_neg h2]
  refine ⟨rfl, ?_, ?_, ?_, rfl⟩
  · simp [emittedLogs_length]
  · simp [emittedLogs_map_url]
  · exact progressSeq_getLastD _ (by omega)

theorem startBulk_completed_run_witness :
    (⟨[⟨"Post A".data, "https://a.blogspot.com/1".data⟩,
       ⟨"Post B".data, "https://b.blogspot.com/2".data⟩],
      "Great tips".data, false, [], 0⟩ : BulkState).targets ≠ [] ∧
    (startBulk (fun _ => 1/2) (fun _ => []) (fun _ => 0)
      ⟨[⟨"Post A".data, "https://a.blogspot.com/1".data⟩,
        ⟨"Post B".data, "https://b.blogspot.com/2".data⟩],
       "Great tips".data, false, [], 0⟩).2.logs.length = 2 ∧
    (startBulk (fun _ => 1/2) (fun _ => []) (fun _ => 0)
      ⟨[⟨"Post A".data, "https://a.blogspot.com/1".data⟩,
        ⟨"Post B".data, "https://b.blogspot.com/2".data⟩],
       "Great tips".data, false, [], 0⟩).2.progress = 100 := by
  refine ⟨by decide, ?_, ?_⟩
  · exact (startBulk_completed_run (fun _ => 1/2) (fun _ => []) (fun _ => 0)
      _ (by decide) (by decide)).2.1
  · exact (startBulk_completed_run (fun _ => 1/2) (fun _ => []) (fun _ => 0)
      _ (by decide) (by decide)).2.2.2.1

/-- Claim C3: starting a run with an empty target list fails with
`EmptyTargetList`, produces no log entries and leaves the whole state —
including `progress`, `isBulking` and the existing log — unchanged. -/
theorem startBulk_empty_targets (rand : ℕ → ℚ) (ids : ℕ → List Char)
    (times : ℕ → ℤ) (σ : BulkState) (h : σ.targets = []) :
    startBulk rand ids times σ = (some .emptyTargetList, σ) := by
  rw [startBulk, if_pos (by simp [h])]

theorem startBulk_empty_targets_witness :
    (⟨[], "x".data, false, [], 0⟩ : BulkState).targets = [] ∧
    startBulk (fun _ => 1/2) (fun _ => []) (fun _ => 0)
        (⟨[], "x".data, false, [], 0⟩ : BulkState) =
      (some .emptyTargetList, ⟨[], "x".data, false, [], 0⟩) :=
  ⟨rfl, startBulk_empty_targets (fun _ => 1/2) (fun _ => []) (fun _ => 0)
    ⟨[], "x".data, false, [], 0⟩ rfl⟩

/-- Claim C4 (amended): starting a run with empty comment text fails with
`MissingComment` for every NON-empty target list; when the target list is
empty as well, the empty-list check fires first and the failure is
`EmptyTargetList` instead.  Either way the state is unchanged. -/
theorem startBulk_missing_comment (rand : ℕ → ℚ) (ids : ℕ → List Char)
    (times : ℕ → ℤ) (σ : BulkState) (h1 : σ.targets ≠ []) (h2 : σ.comment = []) :
    startBulk rand ids times σ = (some .missingComment, σ) := by
  have hl : ¬ σ.targets.length = 0 := by
    simpa [List.length_eq_zero] using h1
  rw [startBulk, if_neg hl, if_pos h2]

theorem startBulk_missing_comment_witness :
    (⟨[⟨"t".data, "u".data⟩], [], false, [], 0⟩ : BulkState).targets ≠ [] ∧
    startBulk (fun _ => 1/2) (fun _ => []) (fun _ => 0)
        (⟨[⟨"t".data, "u".data⟩], [], false, [], 0⟩ : BulkState) =
      (some .missingComment, ⟨[⟨"t".data, "u".data⟩], [], false, [], 0⟩) :=
  ⟨by decide, startBulk_missing_comment (fun _ => 1/2) (fun _ => []) (fun _ => 0)
    ⟨[⟨"t".data, "u".data⟩], [], false, [], 0⟩ (by decide) rfl⟩

/-- Counterexample to claim C4 as stated: with an empty target list AND
empty comment text, `startBulk` reports `EmptyTargetList`, not
`MissingComment` — the target-list check runs first. -/
theorem startBulk_empty_both_reports_empty_list :
    (startBulk (fun _ => 1/2) (fun _ => []) (fun _ => 0)
        (⟨[], [], false, [], 0⟩ : BulkState)).1 = some .emptyTargetList ∧
    (startBulk (fun _ => 1/2) (fun _ => []) (fun _ => 0)
        (⟨[], [], false, [], 0⟩ : BulkState)).1 ≠ some .missingComment := by
  refine ⟨rfl, by decide⟩

/-- Counterexample to claim C9 as stated: calling `startBulk` while
`isBulking` is already `true` (with valid targets and comment) does not
fail at all — no error is reported and the run processes its target. -/
theorem startBulk_no_running_check :
    (startBulk (fun _ => 1/2) (fun _ => []) (fun _ => 0)
        (⟨[⟨"t".data, "u".data⟩], "c".data, true, [], 0⟩ : BulkState)).1 = none ∧
    (startBulk (fun _ => 1/2) (fun _ => []) (fun _ => 0)
        (⟨[⟨"t".data, "u".data⟩], "c".data, true, [], 0⟩ : BulkState)).2.logs.length
      = 1 := by
  constructor
  · rfl
  · decide

/-- Claim C9 (amended): re-entry is prevented only at the UI level — the
start button is disabled whenever `isBulking` is true — while `startBulk`
itself performs no running check: invoked while `isBulking` is true with
valid inputs it reports no error and processes every target. -/
theorem running_guard_is_ui_only (σ : BulkState) (rand : ℕ → ℚ)
    (ids : ℕ → List Char) (times : ℕ → ℤ) (hrun : σ.isBulking = true) :
    startButtonEnabled σ = false ∧
    (σ.targets ≠ [] → σ.comment ≠ [] →
      (startBulk rand ids times σ).1 = none ∧
      (startBulk rand ids times σ).2.logs.length = σ.targets.length) := by
  constructor
  · simp [startButtonEnabled, hrun]
  · intro h1 h2
    have hl : ¬ σ.targets.length = 0 := by
      simpa [List.length_eq_zero] using h1
    rw [startBulk, if_neg hl, if_neg h2]
    exact ⟨rfl, by simp [emittedLogs_length]⟩

theorem running_guard_is_ui_only_witness :
    (⟨[⟨"t".data, "u".data⟩], "c".data, true, [], 0⟩ : BulkState).isBulking = true ∧
    startButtonEnabled (⟨[⟨"t".data, "u".data⟩], "c".data, true, [], 0⟩ : BulkState)
      = false := by
  refine ⟨rfl, ?_⟩
  exact (running_guard_is_ui_only
    ⟨[⟨"t".data, "u".data⟩], "c".data, true, [], 0⟩
    (fun _ => 1/2) (fun _ => []) (fun _ => 0) rfl).1

/-- Claim C2 (amended): over a run with `n` targets, the progress value
emitted after the target at zero-based index `i` is
`Math.round((i+1)/n*100)`; the emitted sequence is non-decreasing and its
final entry is `100`.  The final entry is the ONLY `100` whenever
`n < 200`; for `n ≥ 200` earlier entries can already round up to `100`,
so "reaches 100 exactly once" does not hold in general. -/
theorem progressSeq_values (n : ℕ) (hn : 0 < n) :
    (∀ i, i < n →
      (progressSeq n).getD i 0 = jsRound (((i : ℚ) + 1) / (n : ℚ) * 100)) ∧
    List.Sorted (· ≤ ·) (progressSeq n) ∧
    (progressSeq n).getD (n - 1) 0 = 100 ∧
    (n < 200 → ∀ i, i + 1 < n → (progressSeq n).getD i 0 < 100) := by
  refine ⟨fun i hi => progressSeq_getD n i hi, progressSeq_sorted n, ?_,
    fun h200 i hi => progressSeq_lt_100 n i h200 hi⟩
  rw [progressSeq_getD n (n - 1) (by omega)]
  have hcast : ((n - 1 : ℕ) : ℚ) + 1 = (n : ℚ) := by
    have hn1 : (1 : ℕ) ≤ n := hn
    push_cast [hn1]
    ring
  rw [hcast, div_self (by positivity), one_mul, jsRound, Int.floor_eq_iff]
  constructor <;> norm_num

theorem progressSeq_values_witness :
    0 < 3 ∧ (progressSeq 3).getD 2 0 = 100 ∧
      List.Sorted (· ≤ ·) (progressSeq 3) :=
  ⟨by decide, (progressSeq_values 3 (by decide)).2.2.1,
    (progressSeq_values 3 (by decide)).2.1⟩

/-- Counterexample to claim C2 as stated: in a run over 200 targets the
progress value emitted at index 198 is already `Math.round(99.5) = 100`,
the same value the final entry (index 199) gets — the sequence reaches
100 twice, not exactly once at the final entry. -/
theorem progressSeq_hits_100_twice :
    (progressSeq 200).getD 198 0 = 100 ∧ (progressSeq 200).getD 199 0 = 100 ∧
    (198 : ℕ) ≠ 199 := by
  refine ⟨?_, ?_, by decide⟩
  · rw [progressSeq_getD 200 198 (by norm_num)]
    norm_num [jsRound]
  · rw [progressSeq_getD 200 199 (by norm_num)]
    norm_num [jsRound]

/-- Counterexample to claim C5 as stated: importing the delimiter-free
line `hello` yields `title = 'hello'` (the full line), NOT the default
placeholder `'Postingan Blog'` — `line.split('|')[0]` is the whole line,
which is truthy, so the fallback never fires. -/
theorem parseLine_no_pipe_title_not_default :
    parseLine "hello".data = ⟨"hello".data, "hello".data⟩ ∧
    "hello".data ≠ defaultTitle := by
  refine ⟨by decide, by decide⟩

/-- Claim C5 (amended): importing a non-empty line with no pipe delimiter
yields a Target whose `url` is the full line text and whose `title` is
ALSO the full line text (the default placeholder is used only when the
text before the first pipe is empty). -/
theorem parseLine_no_pipe (line : List Char) (h0 : line ≠ [])
    (h : '|' ∉ line) : parseLine line = ⟨line, line⟩ := by
  have hp : splitChar '|' line = [line] := splitChar_of_not_mem h
  simp [parseLine, hp, h0]

theorem parseLine_no_pipe_witness :
    ("abc".data ≠ [] ∧ '|' ∉ "abc".data) ∧
    parseLine "abc".data = ⟨"abc".data, "abc".data⟩ :=
  ⟨⟨by decide, by decide⟩, parseLine_no_pipe "abc".data (by decide) (by decide)⟩

/-- Counterexample to claim C10 as stated: for the line `|b` — which
contains a pipe and whose text before the first pipe is empty — the
parser does not take `title` to be that (empty) text: it falls back to
the default placeholder `'Postingan Blog'`. -/
theorem parseLine_leading_pipe_default_title :
    (parseLine "|b".data).title = defaultTitle ∧
    "|b".data.takeWhile (fun ch => ch != '|') = [] ∧
    defaultTitle ≠ [] := by
  refine ⟨by decide, by decide, by decide⟩

/-- Claim C10 (amended): for a line containing at least one pipe, `title`
is the text before the first pipe when that text is non-empty (otherwise
the default placeholder), and `url` is the text strictly between the
first and second pipes (text after a second pipe is discarded) — except
that when that segment is empty (e.g. a trailing pipe), `url` falls back
to the entire line text. -/
theorem parseLine_with_pipe (line : List Char) (h : '|' ∈ line) :
    parseLine line =
      { title :=
          if line.takeWhile (fun ch => ch != '|') = [] then defaultTitle
          else line.takeWhile (fun ch => ch != '|'),
        url :=
          if ((line.dropWhile (fun ch => ch != '|')).tail).takeWhile
              (fun ch => ch != '|') = [] then line
          else ((line.dropWhile (fun ch => ch != '|')).tail).takeWhile
            (fun ch => ch != '|') } := by
  have hdec := splitChar_mem '|' line h
  have hfirst : (splitChar '|' line).headD [] =
      line.takeWhile (fun ch => ch != '|') := by
    rw [hdec]
    rfl
  have hsecond : (splitChar '|' line).getD 1 [] =
      ((line.dropWhile (fun ch => ch != '|')).tail).takeWhile
        (fun ch => ch != '|') := by
    rw [hdec, List.getD_cons_succ]
    obtain ⟨p, ps, hps⟩ := List.exists_cons_of_ne_nil
      (splitChar_ne_nil '|' ((line.dropWhile (fun ch => ch != '|')).tail))
    have hh := splitChar_headD '|' ((line.dropWhile (fun ch => ch != '|')).tail)
    rw [hps] at hh ⊢
    simpa using hh
  rw [parseLine]
  simp only [hfirst, hsecond]

theorem parseLine_with_pipe_witness :
    '|' ∈ "a|b|c".data ∧ parseLine "a|b|c".data = ⟨"a".data, "b".data⟩ := by
  refine ⟨by decide, ?_⟩
  have h := parseLine_with_pipe "a|b|c".data (by decide)
  rw [h]
  decide

/-- Counterexample to claim C6 as stated: the single-element list with an
empty title (which vacuously contains no pipe) does not round-trip —
export writes the line `|u`, and re-import replaces the empty title with
the default placeholder. -/
theorem roundtrip_empty_title_fails :
    importFromText (exportContent [⟨[], "u".data⟩]) =
      [⟨defaultTitle, "u".data⟩] ∧
    ([⟨defaultTitle, "u".data⟩] : List BlogResult) ≠ [⟨[], "u".data⟩] := by
  refine ⟨by decide, by decide⟩

/-- Claim C6 (amended): exporting a target list to the line format and
re-importing it yields the original list, provided every title AND every
url is non-empty and contains neither the pipe delimiter nor a newline
(the claim's condition — only titles pipe-free — is not enough: empty
titles/urls trigger the import fallbacks and pipes or newlines in a url
break the line structure). -/
theorem import_export_roundtrip (rs : List BlogResult)
    (h : ∀ r ∈ rs, r.title ≠ [] ∧ r.url ≠ [] ∧ '|' ∉ r.title ∧ '|' ∉ r.url ∧
      '\n' ∉ r.title ∧ '\n' ∉ r.url) :
    importFromText (exportContent rs) = rs := by
  match rs with
  | [] => rfl
  | r0 :: rs' =>
    set lineOf : BlogResult → List Char := fun r => r.title ++ '|' :: r.url
      with hlineOf
    have hnl : ∀ p ∈ (r0 :: rs').map lineOf, '\n' ∉ p := by
      intro p hp
      obtain ⟨r, hr, rfl⟩ := List.mem_map.mp hp
      obtain ⟨-, -, -, -, h5, h6⟩ := h r hr
      simp only [hlineOf, List.mem_append, List.mem_cons]
      rintro (hc | hc | hc)
      · exact h5 hc
      · exact absurd hc (by decide)
      · exact h6 hc
    have hlines : splitChar '\n' (joinChar '\n' ((r0 :: rs').map lineOf)) =
        (r0 :: rs').map lineOf :=
      splitChar_join '\n' _ (by simp) hnl
    rw [importFromText, exportContent, hlines]
    have hkeep : ((r0 :: rs').map lineOf).filter lineNonBlank =
        (r0 :: rs').map lineOf := by
      rw [List.filter_eq_self]
      intro p hp
      obtain ⟨r, hr, rfl⟩ := List.mem_map.mp hp
      exact lineNonBlank_concat r.title r.url
    rw [hkeep, List.map_map]
    have : ∀ r ∈ r0 :: rs', (parseLine ∘ lineOf) r = id r := by
      intro r hr
      obtain ⟨h1, h2, h3, h4, -, -⟩ := h r hr
      simp only [Function.comp, hlineOf, id]
      exact parseLine_concat h3 h4 h1 h2
    rw [List.map_congr_left this, List.map_id]

theorem import_export_roundtrip_witness :
    (∀ r ∈ ([⟨"Post A".data, "https://a.blogspot.com/2024/01/x.html".data⟩] :
        List BlogResult),
      r.title ≠ [] ∧ r.url ≠ [] ∧ '|' ∉ r.title ∧ '|' ∉ r.url ∧
        '\n' ∉ r.title ∧ '\n' ∉ r.url) ∧
    importFromText (exportContent
        [⟨"Post A".data, "https://a.blogspot.com/2024/01/x.html".data⟩]) =
      [⟨"Post A".data, "https://a.blogspot.com/2024/01/x.html".data⟩] :=
  ⟨by decide, import_export_roundtrip
    [⟨"Post A".data, "https://a.blogspot.com/2024/01/x.html".data⟩] (by decide)⟩

/-- Claim C7: the simulated outcome for a target is decided by
`Math.random() > 0.1`; modelling the draw as a uniform sample in `[0,1)`,
the success event has probability `9/10` and the failure event
probability `1/10` (Lebesgue measure of the regions), and the decision
`isSuccess` holds exactly when the sampled value exceeds `0.1`. -/
theorem success_draw_model :
    (∀ x : ℚ, isSuccess x = true ↔ 1/10 < x) ∧
    MeasureTheory.volume successRegion = ENNReal.ofReal (9/10) ∧
    MeasureTheory.volume failRegion = ENNReal.ofReal (1/10) := by
  refine ⟨fun x => by simp [isSuccess], ?_, ?_⟩
  · have hs : successRegion = Set.Ioo (1/10 : ℝ) 1 := by
      ext x
      simp only [successRegion, Set.mem_setOf_eq, Set.mem_Ico, Set.mem_Ioo]
      constructor
      · rintro ⟨⟨h0, h1⟩, h2⟩
        exact ⟨h2, h1⟩
      · rintro ⟨h2, h1⟩
        exact ⟨⟨by linarith, h1⟩, h2⟩
    rw [hs, Real.volume_Ioo]
    norm_num
  · have hf : failRegion = Set.Icc (0 : ℝ) (1/10) := by
      ext x
      simp only [failRegion, Set.mem_setOf_eq, Set.mem_Ico, Set.mem_Icc, not_lt]
      constructor
      · rintro ⟨⟨h0, h1⟩, h2⟩
        exact ⟨h0, h2⟩
      · rintro ⟨h0, h2⟩
        exact ⟨⟨h0, by linarith⟩, h2⟩
    rw [hf, Real.volume_Icc]
    norm_num

/-- Counterexample to claim C8 as stated: `searchBlogs` does NOT
deduplicate — two identical grounding chunks survive the filter and the
cap as two identical `(title, url)` entries. -/
theorem searchBlogs_keeps_duplicates :
    searchBlogsResults
        (some [⟨some ⟨some "T".data, some "a.html".data⟩⟩,
               ⟨some ⟨some "T".data, some "a.html".data⟩⟩]) 10 =
      [⟨"T".data, "a.html".data⟩, ⟨"T".data, "a.html".data⟩] ∧
    ¬ (searchBlogsResults
        (some [⟨some ⟨some "T".data, some "a.html".data⟩⟩,
               ⟨some ⟨some "T".data, some "a.html".data⟩⟩]) 10).Nodup := by
  refine ⟨by decide, by decide⟩

/-- Claim C8 (amended): for every chunk list and requested count, the
Blog Finder returns a list of `(title, url)` candidates of length at most
the requested count, each of whose urls matches the article-like shape
(`.html` substring or `/YYYY/MM/` date segment); the list is NOT
deduplicated — duplicate chunks yield duplicate entries. -/
theorem searchBlogs_capped_and_filtered (chunks : Option (List GroundingChunk))
    (count : ℕ) :
    (searchBlogsResults chunks count).length ≤ count ∧
    (searchBlogsResults chunks count).all (fun r => articleLike r.url) = true := by
  cases chunks with
  | none => simp [searchBlogsResults]
  | some cs =>
    constructor
    · exact List.length_take_le _ _
    · rw [List.all_eq_true]
      intro r hr
      have hr2 := List.mem_of_mem_take hr
      exact (List.mem_filter.mp hr2).2
